import Mathlib

/-!
Verification of the `category-products-lister` block
(`src/blocks/category-products-lister/category-products-lister.js`).

The JavaScript source is shallowly embedded below: strings are Lean
`String`s (operated on through their character lists, restricted to their
ASCII content, which is all the component's fixed strings use), DOM
elements are a small `Node` tree, side effects (the network fetch, the
click listener) are represented by explicit data (a `FetchPlan` request
description, a `clickable : Bool` flag), and the external collaborators
(`isAuthorEnvironment`, the browser `URL` API, the network) are passed in
as parameters or modelled where noted.
-/

namespace CPL

/-! ## Character and list utilities -/

/-- `isPre pat s` : `pat` is a leading run of `s` (list-level `startsWith`). -/
def isPre : List Char → List Char → Bool
  | [], _ => true
  | _ :: _, [] => false
  | a :: p, b :: s => decide (a = b) && isPre p s

/-- `containsL pat s` : `pat` occurs contiguously somewhere in `s`
(list-level of JavaScript `String.prototype.includes`). -/
def containsL (pat : List Char) : List Char → Bool
  | [] => isPre pat []
  | b :: t => isPre pat (b :: t) || containsL pat t

/-- `String.prototype.includes`. -/
def containsSub (s pat : String) : Bool := containsL pat.toList s.toList

/-- `String.prototype.startsWith`. -/
def startsWithS (s pat : String) : Bool := isPre pat.toList s.toList

/-- `String.prototype.endsWith`. -/
def endsWithS (s pat : String) : Bool := isPre pat.toList.reverse s.toList.reverse

/-- Drop the last `n` characters of a string. -/
def dropRightS (s : String) (n : Nat) : String := ⟨s.toList.take (s.toList.length - n)⟩

/-- The 26 ASCII lower/upper case letter pairs. -/
def casePairs : List (Char × Char) :=
  [('a','A'), ('b','B'), ('c','C'), ('d','D'), ('e','E'), ('f','F'), ('g','G'),
   ('h','H'), ('i','I'), ('j','J'), ('k','K'), ('l','L'), ('m','M'), ('n','N'),
   ('o','O'), ('p','P'), ('q','Q'), ('r','R'), ('s','S'), ('t','T'), ('u','U'),
   ('v','V'), ('w','W'), ('x','X'), ('y','Y'), ('z','Z')]

/-- ASCII uppercasing of one character (the ASCII content of
`String.prototype.toUpperCase`). -/
def upChar (c : Char) : Char :=
  match casePairs.find? (fun p => decide (p.1 = c)) with
  | some p => p.2
  | none => c

/-- ASCII lowercasing of one character. -/
def downChar (c : Char) : Char :=
  match casePairs.find? (fun p => decide (p.2 = c)) with
  | some p => p.1
  | none => c

/-- Case-insensitive `startsWith` on character lists. -/
def ciPre (pat s : List Char) : Bool := isPre (pat.map downChar) (s.map downChar)

/-- Case-insensitive `startsWith` on strings. -/
def ciStartsWith (s pat : String) : Bool := ciPre pat.toList s.toList

/-- Whitespace characters recognised by `String.prototype.trim`
(ASCII portion). -/
def isWs (c : Char) : Bool :=
  decide (c = ' ') || decide (c = '\t') || decide (c = '\n') ||
  decide (c = '\r') || decide (c = '\x0b') || decide (c = '\x0c')

/-- `String.prototype.trim` on character lists. -/
def trimL (l : List Char) : List Char :=
  ((l.dropWhile isWs).reverse.dropWhile isWs).reverse

/-- `String.prototype.trim`. -/
def trimS (s : String) : String := ⟨trimL s.toList⟩

/-- `split(",")` on character lists; `splitCommaL [] = [[]]` matches
JavaScript, where `"".split(",")` is `[""]`. -/
def splitCommaL : List Char → List (List Char)
  | [] => [[]]
  | c :: t =>
    if c = ',' then [] :: splitCommaL t
    else
      match splitCommaL t with
      | h :: r => (c :: h) :: r
      | [] => [[c]]

/-- `String.prototype.split(",")`. -/
def splitCommaS (s : String) : List String := (splitCommaL s.toList).map (⟨·⟩)

/-! ## `encodeURIComponent` -/

/-- Uppercase hexadecimal digit, as emitted by `encodeURIComponent`. -/
def hexDig (n : Nat) : Char := if n < 10 then Char.ofNat (48 + n) else Char.ofNat (55 + n)

/-- UTF-8 byte sequence of a code point (as percent-encoding operates on
UTF-8 bytes). -/
def utf8Bytes (c : Char) : List Nat :=
  let n := c.toNat
  if n < 128 then [n]
  else if n < 2048 then [192 + n / 64, 128 + n % 64]
  else if n < 65536 then [224 + n / 4096, 128 + (n / 64) % 64, 128 + n % 64]
  else [240 + n / 262144, 128 + (n / 4096) % 64, 128 + (n / 64) % 64, 128 + n % 64]

/-- Characters `encodeURIComponent` leaves unescaped:
`A-Z a-z 0-9 - _ . ! ~ * ' ( )`. -/
def uriUnescaped (c : Char) : Bool :=
  (decide ('A' ≤ c) && decide (c ≤ 'Z')) ||
  (decide ('a' ≤ c) && decide (c ≤ 'z')) ||
  (decide ('0' ≤ c) && decide (c ≤ '9')) ||
  decide (c ∈ "-_.!~*'()".toList)

/-- JavaScript `encodeURIComponent`. -/
def encodeURIComponent (s : String) : String :=
  ⟨s.toList.flatMap fun c =>
    if uriUnescaped c then [c]
    else (utf8Bytes c).flatMap fun b => ['%', hexDig (b / 16), hexDig (b % 16)]⟩

/-! ## JSON values and the response contract

`Json` models the value returned by `resp.json()`.  `getO` models property
access `o?.k` combined with optional chaining: it yields a value only when
the receiver is an object that has the property (an object produced by
`JSON.parse` has unique keys, so first-match lookup is exact). -/

inductive Json where
  | null
  | bool (b : Bool)
  | num (n : Int)
  | str (s : String)
  | arr (elts : List Json)
  | obj (fields : List (String × Json))

def Json.getO : Json → String → Option Json
  | .obj fields, k => (fields.find? fun p => decide (p.1 = k)).map Prod.snd
  | _, _ => none

/-- `json?.data?.productsModelList?.items` — the fixed nested path of the
response contract. -/
def itemsPath (j : Json) : Option Json :=
  ((j.getO "data").bind fun d => d.getO "productsModelList").bind fun p => p.getO "items"

/-- `json?.data?.productsModelList?.items || []`, read back as a list of
records: absence of any part of the path (or a falsy value there) yields
the empty sequence.  (A present non-array value at the path is outside the
response schema `{data:{productsModelList:{items:[...]}}}` and is not
modelled.) -/
def respItems (j : Json) : List Json :=
  match itemsPath j with
  | some (.arr elts) => elts
  | _ => []

/-! ## The two fetch strategies (`fetchLegacyProducts`,
`fetchCategoryFilteredProducts`)

The environment-detection collaborator `isAuthorEnvironment()` is passed in
as `isAuthor : Bool`.  The network is split into two halves:

* a *request plan* — `FetchPlan` describes whether a request is issued and
  with which URL (both strategies short-circuit to `noRequest` on a falsy
  path, before any URL is built);
* a *response outcome* — `Except Unit Json`, where `.error` covers a
  network error, a non-JSON body or a parse exception (everything the
  source's `try`/`catch` turns into `[]`). -/

def legacyAuthorBase : String :=
  "https://author-p165802-e1765367.adobeaemcloud.com/graphql/execute.json/luma3/menproductspagelister;"

def legacyPublishBase : String :=
  "https://275323-918sangriatortoise.adobeioruntime.net/api/v1/web/dx-excshell-1/lumaProductsGraphQl?"

def modernAuthorBase : String :=
  "https://author-p165802-e1765367.adobeaemcloud.com/graphql/execute.json/luma3/categoryFilteredProductsLister;"

def modernPublishBase : String :=
  "https://275323-918sangriatortoise.adobeioruntime.net/api/v1/web/dx-excshell-1/categoryFilteredProductsLister?"

/-- The `categoryFilter` argument of `fetchCategoryFilteredProducts` is a
string or an array of strings (`string|string[]` per its JSDoc). -/
inductive TagsArg where
  | str (s : String)
  | list (elts : List String)
deriving DecidableEq

/-- JavaScript truthiness of a `categoryFilter` value (`null` is the
`none` case of the callers' `Option TagsArg`; an array is always truthy,
an empty string is falsy). -/
def TagsArg.truthy : TagsArg → Bool
  | .str s => decide (s ≠ "")
  | .list _ => true

/-- `Array.isArray(categoryFilter) ? categoryFilter.join(',') : categoryFilter`. -/
def TagsArg.normalize : TagsArg → String
  | .str s => s
  | .list elts => ⟨List.intercalate ",".toList (elts.map String.toList)⟩

/-- URL built by `fetchLegacyProducts`: base (by environment) with only the
`_path` parameter substituted.  No other parameter is appended. -/
def legacyUrl (isAuthor : Bool) (path : String) : String :=
  (if isAuthor then legacyAuthorBase else legacyPublishBase) ++ "_path=" ++ path

/-- URL built by `fetchCategoryFilteredProducts`: base with `_path`, plus
`&category=` with the encoded normalized filter when the filter is truthy. -/
def modernUrl (isAuthor : Bool) (path : String) (categoryFilter : Option TagsArg) : String :=
  let u := (if isAuthor then modernAuthorBase else modernPublishBase) ++ "_path=" ++ path
  match categoryFilter with
  | some f => if f.truthy then u ++ "&category=" ++ encodeURIComponent f.normalize else u
  | none => u

/-- Whether a strategy issues an HTTP request, and with which URL. -/
inductive FetchPlan where
  | noRequest
  | getRequest (url : String)
deriving DecidableEq

/-- Request behaviour of `fetchLegacyProducts`: `if (!path) return [];`
comes before the URL is built, so a falsy path issues no request. -/
def legacyPlan (isAuthor : Bool) (path : String) : FetchPlan :=
  if path = "" then .noRequest else .getRequest (legacyUrl isAuthor path)

/-- Request behaviour of `fetchCategoryFilteredProducts`. -/
def modernPlan (isAuthor : Bool) (path : String) (categoryFilter : Option TagsArg) : FetchPlan :=
  if path = "" then .noRequest else .getRequest (modernUrl isAuthor path categoryFilter)

/-- Result of `fetchLegacyProducts` given the response outcome: empty on a
falsy path, empty on any caught exception, else the records at the fixed
nested path. -/
def fetchLegacyProducts (path : String) (resp : Except Unit Json) : List Json :=
  if path = "" then []
  else
    match resp with
    | .error _ => []
    | .ok j => respItems j

/-- Result of `fetchCategoryFilteredProducts` given the response outcome;
the category filter only affects the URL (no client-side filtering). -/
def fetchCategoryFilteredProducts (path : String) (_categoryFilter : Option TagsArg)
    (resp : Except Unit Json) : List Json :=
  if path = "" then []
  else
    match resp with
    | .error _ => []
    | .ok j => respItems j

/-! ## DOM model -/

/-- A DOM element: tag name, `className`, own `textContent`, children.
`createOptimizedPicture` (external collaborator) is represented by a
`"picture"` element carrying the image URL in its text slot; the plain
`<img>` branch by an `"img"` element likewise. -/
inductive Node where
  | el (tag : String) (cls : String) (text : String) (children : List Node)

/-- A container is its list of children (`block.append` pushes at the end,
`block.innerHTML = ""` resets it to `[]`). -/
abbrev Container := List Node

/-! ## `buildCard` -/

/-- The destructured raw product record
`const { id, sku, name, image = {}, category = [] } = item || {};`.
`none` models an absent field (`undefined`). -/
structure ProductImage where
  authorUrl : Option String := none
  publishUrl : Option String := none

structure Item where
  id : Option String := none
  sku : Option String := none
  name : Option String := none
  image : Option ProductImage := none
  category : Option (List String) := none

/-- JavaScript `a || b` on possibly-absent strings: an absent value and the
empty string are falsy. -/
def jsOrS (a b : Option String) : Option String :=
  match a with
  | some s => if s = "" then b else some s
  | none => b

/-- `category && category.length ? category.join(", ") : ""` (with
`category` already defaulted to `[]` by the destructuring). -/
def categoryText (category : List String) : String :=
  if category.length = 0 then ""
  else ⟨List.intercalate ", ".toList (category.map String.toList)⟩

/-- `.replace(/^(luma:|lumaproducts:)/gi, "")` — the pattern is anchored at
the string start, so even with the `g` flag exactly one leading occurrence
is removed (alternatives tried left to right, case-insensitively). -/
def stripLumaMark (l : List Char) : List Char :=
  if ciPre "luma:".toList l then l.drop 5
  else if ciPre "lumaproducts:".toList l then l.drop 13
  else l

/-- `.replace(/\x2f/g, " / ")`: every slash becomes `" / "`. -/
def replSlash : List Char → List Char
  | [] => []
  | c :: t => if c = '/' then ' ' :: '/' :: ' ' :: replSlash t else c :: replSlash t

/-- The rendered category label: join, strip the leading luma marker,
pad slashes, uppercase. -/
def categoryLabel (category : List String) : String :=
  ⟨((stripLumaMark (categoryText category).toList |> replSlash).map upChar)⟩

/-- What `buildCard` produces: the card model plus its element.  The click
listener attached when `productId` is truthy is represented by
`clickable`. -/
structure Card where
  productId : String
  clickable : Bool
  element : Node

def buildCard (item : Item) (isAuthor : Bool) : Card :=
  let image := item.image.getD {}
  let category := item.category.getD []
  let imgUrl := if isAuthor then image.authorUrl else image.publishUrl
  let productId := (jsOrS item.sku (jsOrS item.id (some ""))).getD ""
  let picture : Option Node :=
    match imgUrl with
    | some u =>
      if u = "" then none
      else if !isAuthor && startsWithS u "http" then
        some (.el "img" "" u [])
      else
        some (.el "picture" "" u [])
    | none => none
  let media : Node := .el "div" "cpl-card-media" "" picture.toList
  let cat : Node := .el "p" "cpl-card-category" (categoryLabel category) []
  let title : Node := .el "h3" "cpl-card-title" ((jsOrS item.name (some "")).getD "") []
  let meta : Node := .el "div" "cpl-card-meta" "" [cat, title]
  { productId := productId
    clickable := decide (productId ≠ "")
    element := .el "article" "cpl-card" "" [media, meta] }

/-! ## `renderHeader` -/

/-- `selectedTags.length` (string length or array length). -/
def TagsArg.len : TagsArg → Nat
  | .str s => s.toList.length
  | .list elts => elts.length

/-- The chip texts: the input entries (an array as-is, a string split on
commas), trimmed, with falsy (empty) entries dropped, in input order. -/
def chipTexts : TagsArg → List String
  | .str s => ((splitCommaS s).map trimS).filter (fun t => decide (t ≠ ""))
  | .list elts => (elts.map trimS).filter (fun t => decide (t ≠ ""))

/-- `renderHeader`: returns the appended header element, or `none` when the
guard `!selectedTags || selectedTags.length === 0` fires.  Note the
`div.cpl-tags` wrapper is appended whenever the guard passes, even when
every entry is dropped by the trim/filter step. -/
def renderHeader (selectedTags : TagsArg) : Option Node :=
  if !selectedTags.truthy || decide (selectedTags.len = 0) then none
  else some (.el "div" "cpl-tags" ""
    ((chipTexts selectedTags).map fun t => .el "span" "cpl-tag" t []))

/-! ## `decorate` — folder reference resolution -/

/-- Model of the browser `URL` API restricted to what the source hands it
(strings starting with `"http"`): the pathname of `scheme://host/path?q#f`
is the segment from the first `/` after the authority up to `?` or `#`,
defaulting to `"/"`; `none` models the `TypeError` thrown when there is no
`://` separator or an empty authority. -/
def afterSchemeSep : List Char → Option (List Char)
  | ':' :: '/' :: '/' :: t => some t
  | _ :: t => afterSchemeSep t
  | [] => none

/-- Characters ending the authority (host) section. -/
def pathDelim (c : Char) : Bool :=
  decide (c = '/') || decide (c = '?') || decide (c = '#')

/-- Characters ending the pathname section. -/
def queryDelim (c : Char) : Bool :=
  decide (c = '?') || decide (c = '#')

/-- Pathname of the part after `://`: requires a nonempty host, then takes
from the first `/` up to `?` or `#`, defaulting to `"/"`. -/
def pathnameOfRest (rest : List Char) : Option String :=
  if rest.takeWhile (fun c => !pathDelim c) = [] then none
  else
    match rest.dropWhile (fun c => !pathDelim c) with
    | '/' :: t => some ⟨'/' :: t.takeWhile (fun c => !queryDelim c)⟩
    | _ => some "/"

def urlPathname (s : String) : Option String :=
  match afterSchemeSep s.toList with
  | none => none
  | some rest => pathnameOfRest rest

/-- The absolute-URL normalization step of `decorate`: when the reference
starts with `"http"` replace it by its pathname; a parse failure is caught
and leaves the reference unchanged.  `parse` is the URL collaborator
(`urlPathname` above in the concrete instantiation). -/
def normalizeAbsUrl (parse : String → Option String) (folderHref : String) : String :=
  if decide (folderHref ≠ "") && startsWithS folderHref "http" then
    match parse folderHref with
    | some p => p
    | none => folderHref
  else folderHref

/-- The `.html`-stripping step of `decorate`: `/\.html$/` is replaced once. -/
def stripHtmlOnce (folderHref : String) : String :=
  if decide (folderHref ≠ "") && endsWithS folderHref ".html" then dropRightS folderHref 5
  else folderHref

/-- Folder reference resolution: URL normalization, then `.html` strip. -/
def resolveFolderHref (parse : String → Option String) (folderHref : String) : String :=
  stripHtmlOnce (normalizeAbsUrl parse folderHref)

/-! ## `decorate` — strategy choice and rendering -/

/-- `folderHref && folderHref.includes('/dam/luma3/')`. -/
def isLegacyLuma3 (folderHref : String) : Bool :=
  decide (folderHref ≠ "") && containsSub folderHref "/dam/luma3/"

inductive Strategy where
  | legacy
  | modern
deriving DecidableEq

/-- Which fetch strategy `decorate` invokes, and the request it plans.
`tags` is the string extracted from the block configuration (passed to the
modern strategy as `categoryFilter`; ignored by the legacy one). -/
def dispatchPlan (isAuthor : Bool) (folderHref : String) (tags : String) :
    Strategy × FetchPlan :=
  if isLegacyLuma3 folderHref then (.legacy, legacyPlan isAuthor folderHref)
  else (.modern, modernPlan isAuthor folderHref (some (.str tags)))

/-- The items `decorate` receives, given the response outcome. -/
def dispatchItems (folderHref : String) (tags : String) (resp : Except Unit Json) :
    List Json :=
  if isLegacyLuma3 folderHref then fetchLegacyProducts folderHref resp
  else fetchCategoryFilteredProducts folderHref (some (.str tags)) resp

/-- String-valued field of a record, per the response schema
(`id`, `sku`, `name` are strings when present). -/
def strField (j : Json) (k : String) : Option String :=
  match j.getO k with
  | some (.str s) => some s
  | _ => none

/-- The `image` object with its environment-specific URL fields. -/
def imageOfJson (j : Json) : Option ProductImage :=
  match j.getO "image" with
  | some (.obj fields) =>
    some { authorUrl := strField (.obj fields) "_authorUrl"
           publishUrl := strField (.obj fields) "_publishUrl" }
  | _ => none

/-- The `category` array of strings, when present per the schema. -/
def catOfJson (j : Json) : Option (List String) :=
  match j.getO "category" with
  | some (.arr elts) =>
    some (elts.map fun e => match e with | .str s => s | _ => "")
  | _ => none

/-- Read one raw record of the response schema
`{id?, sku?, name?, image?: {_authorUrl, _publishUrl}, category?: [string]}`
into the destructured shape `buildCard` consumes. -/
def itemOfJson (j : Json) : Item :=
  { id := strField j "id"
    sku := strField j "sku"
    name := strField j "name"
    image := imageOfJson j
    category := catOfJson j }

/-- The `p.cpl-empty` element appended when no items were fetched. -/
def emptyMsgNode : Node := .el "p" "cpl-empty" "No products found." []

/-- The grid and its contents: a single empty-state message when the
fetched sequence is empty, else one card per record in response order. -/
def gridNode (cards : List Node) : Node :=
  .el "div" "cpl-grid" "" (if cards.length = 0 then [emptyMsgNode] else cards)

/-- The rendering tail of `decorate`, after the folder reference, the tags
and the items are in hand: `block.innerHTML = ""` discards the previous
children, then the optional tag header and the grid are appended. -/
def decorateRender (tags : String) (cards : List Node) (_prior : Container) : Container :=
  let cleared : Container := ([] : List Node)
  let withHeader : Container :=
    match renderHeader (.str tags) with
    | some h => cleared ++ [h]
    | none => cleared
  withHeader ++ [gridNode cards]

/-- `decorate` end to end, over explicit input data: the extracted folder
reference, the URL collaborator, the extracted tags string, the environment
flag, the response outcome, and the container's prior children.  Returns
the final children and the planned request. -/
def decorate (parse : String → Option String) (folderHref0 tags : String)
    (isAuthor : Bool) (resp : Except Unit Json) (prior : Container) :
    Container × FetchPlan :=
  let folderHref := resolveFolderHref parse folderHref0
  let items := dispatchItems folderHref tags resp
  let cards := items.map fun it => (buildCard (itemOfJson it) isAuthor).element
  (decorateRender tags cards prior, (dispatchPlan isAuthor folderHref tags).2)

/-! ## Specification-side definitions and observation predicates

These definitions follow the wording of the specification's testable
properties; the theorems below compare them with the source model. -/

/-- The claim's reading of `productId`: the `sku` when non-empty, else the
`id` when non-empty, else the empty string. -/
def specIdPart (item : Item) : String :=
  match item.id with
  | some i => if i = "" then "" else i
  | none => ""

def specProductId (item : Item) : String :=
  match item.sku with
  | some s => if s = "" then specIdPart item else s
  | none => specIdPart item

/-- `c` is an ASCII lowercase letter (a key of `casePairs`). -/
def isLowerLetter (c : Char) : Bool :=
  (casePairs.find? fun p => decide (p.1 = c)).isSome

/-- Head of a list is a space. -/
def headIsSpace : List Char → Bool
  | d :: _ => decide (d = ' ')
  | [] => false

/-- Scan asserting every `/` is immediately flanked by spaces (`prev` is
the previously seen character). -/
def slashSpacedAux (prev : Option Char) : List Char → Bool
  | [] => true
  | c :: t =>
    (if c = '/' then decide (prev = some ' ') && headIsSpace t else true)
    && slashSpacedAux (some c) t

/-- Every `/` in the list occurs as the middle of `" / "`. -/
def slashSpaced (l : List Char) : Bool := slashSpacedAux none l

/-- The joined category text begins with two stacked luma markers (the
source's anchored replacement removes only the first). -/
def doubledLumaMark (l : List Char) : Bool :=
  ciPre ("luma:".toList ++ "luma:".toList) l ||
  ciPre ("luma:".toList ++ "lumaproducts:".toList) l ||
  ciPre ("lumaproducts:".toList ++ "luma:".toList) l ||
  ciPre ("lumaproducts:".toList ++ "lumaproducts:".toList) l

/-! ## Basic lemmas -/

theorem isPre_append_self (p r : List Char) : isPre p (p ++ r) = true := by
  induction p with
  | nil => rfl
  | cons a t ih => simp [isPre, ih]

theorem containsSub_empty_left (pat : String) (h : pat.toList ≠ []) :
    containsSub "" pat = false := by
  unfold containsSub containsL
  cases hp : pat.toList with
  | nil => exact absurd hp h
  | cons a t => rfl

/-! ## Claims -/

/-- C1: for every folder path containing the legacy marker `/dam/luma3/`,
`decorate` invokes the legacy strategy — never the modern one — and the
request URL is the environment-selected legacy base with only the `_path`
parameter substituted; no `category` parameter appears, and the extracted
tags have no influence (the plan is the same for any two tags values). -/
theorem legacy_path_only_path_param (isAuthor : Bool) (path tags tags' : String)
    (h : containsSub path "/dam/luma3/" = true) :
    dispatchPlan isAuthor path tags =
      (.legacy, .getRequest
        ((if isAuthor then legacyAuthorBase else legacyPublishBase) ++ "_path=" ++ path)) ∧
    dispatchPlan isAuthor path tags = dispatchPlan isAuthor path tags' := by
  have hne : path ≠ "" := by
    intro he
    rw [he] at h
    rw [containsSub_empty_left "/dam/luma3/" (by decide)] at h
    exact Bool.false_ne_true h
  have hleg : isLegacyLuma3 path = true := by
    simp [isLegacyLuma3, hne, h]
  constructor
  · simp [dispatchPlan, hleg, legacyPlan, hne, legacyUrl]
  · simp [dispatchPlan, hleg]

/-- C1 witness. -/
theorem legacy_path_only_path_param_witness :
    dispatchPlan true "/dam/luma3/men-products" "red" =
      (.legacy, .getRequest (legacyAuthorBase ++ "_path=" ++ "/dam/luma3/men-products")) :=
  (legacy_path_only_path_param true "/dam/luma3/men-products" "red" "blue" (by decide)).1

/-- C3: every network error, non-JSON body or parse exception (the
`.error` outcome) is caught by both fetch strategies and converted to the
empty sequence, and the renderer then completes on the empty-state branch:
the final children are those of rendering zero cards, whose grid holds the
single `No products found.` message. -/
theorem fetch_failure_empty_render (path tags : String) (filt : Option TagsArg)
    (e : Unit) (isAuthor : Bool) (prior : Container) :
    fetchLegacyProducts path (.error e) = [] ∧
    fetchCategoryFilteredProducts path filt (.error e) = [] ∧
    decorate urlPathname path tags isAuthor (.error e) prior =
      (decorateRender tags [] prior,
        (dispatchPlan isAuthor (resolveFolderHref urlPathname path) tags).2) ∧
    decorateRender tags [] prior =
      (match renderHeader (.str tags) with | some h => [h] | none => []) ++
        [.el "div" "cpl-grid" "" [emptyMsgNode]] := by
  refine ⟨?_, ?_, ?_, ?_⟩
  · unfold fetchLegacyProducts; split <;> rfl
  · unfold fetchCategoryFilteredProducts; split <;> rfl
  · have hitems : ∀ f, dispatchItems f tags (Except.error e) = [] := by
      intro f
      unfold dispatchItems fetchLegacyProducts fetchCategoryFilteredProducts
      split <;> split <;> rfl
    simp only [decorate, hitems, List.map_nil]
  · unfold decorateRender gridNode
    split <;> rfl

/-- C8: rendering is a full replace of the container's children — the
result does not depend on the prior children at all, so running `decorate`
a second time on its own output (with the same input data) leaves the
container unchanged. -/
theorem decorate_full_replace_idempotent (parse : String → Option String)
    (folderHref0 tags : String) (isAuthor : Bool) (resp : Except Unit Json)
    (cards : List Node) (prior prior' : Container) :
    decorate parse folderHref0 tags isAuthor resp
        ((decorate parse folderHref0 tags isAuthor resp prior).1) =
      decorate parse folderHref0 tags isAuthor resp prior ∧
    decorateRender tags cards prior = decorateRender tags cards prior' := ⟨rfl, rfl⟩

/-- C10: on an empty (falsy) folder reference both strategies return the
empty sequence before any URL is built — no request is planned — and
`decorate` renders the empty-state grid with no network activity. -/
theorem empty_folder_no_network (isAuthor : Bool) (tags : String)
    (filt : Option TagsArg) (resp : Except Unit Json) (prior : Container) :
    legacyPlan isAuthor "" = .noRequest ∧
    modernPlan isAuthor "" filt = .noRequest ∧
    fetchLegacyProducts "" resp = [] ∧
    fetchCategoryFilteredProducts "" filt resp = [] ∧
    decorate urlPathname "" tags isAuthor resp prior =
      (decorateRender tags [] prior, .noRequest) ∧
    gridNode [] = .el "div" "cpl-grid" "" [emptyMsgNode] :=
  ⟨rfl, rfl, rfl, rfl, rfl, rfl⟩

/-- C2 counterexample: with tags `"red, blue"` the modern request URL does
NOT contain `category=red%2Cblue` — `encodeURIComponent` also escapes the
space, producing `category=red%2C%20blue` — and splitting the raw
parameter value on commas yields the untrimmed entries, not the trimmed
tag list. -/
theorem modern_category_param_counterexample :
    containsSub (modernUrl false "/content/cat/shirts" (some (.str "red, blue")))
        "category=red%2Cblue" = false ∧
    containsSub (modernUrl false "/content/cat/shirts" (some (.str "red, blue")))
        "category=red%2C%20blue" = true ∧
    encodeURIComponent "red, blue" = "red%2C%20blue" ∧
    splitCommaS "red, blue" ≠ ["red", "blue"] := by
  refine ⟨by decide, by decide, by decide, by decide⟩

/-- C2 amended: for every non-legacy folder path the modern strategy is
invoked, and it appends `&category=` followed by the percent-encoding of
the *raw* tags string exactly when that string is nonempty; the string is
passed through untrimmed (for tags `"red, blue"` the URL carries
`category=red%2C%20blue`, and decoding then splitting on commas recovers
the untrimmed entries, not the trimmed tag list). -/
theorem modern_strategy_raw_tags_param (isAuthor : Bool) (path tags : String)
    (hnl : isLegacyLuma3 path = false) (hne : path ≠ "") :
    (dispatchPlan isAuthor path tags).1 = .modern ∧
    (dispatchPlan isAuthor path tags).2 =
      .getRequest (modernUrl isAuthor path (some (.str tags))) ∧
    modernUrl isAuthor path (some (.str tags)) =
      (if tags = ""
        then (if isAuthor then modernAuthorBase else modernPublishBase) ++ "_path=" ++ path
        else (if isAuthor then modernAuthorBase else modernPublishBase) ++ "_path=" ++ path
          ++ "&category=" ++ encodeURIComponent tags) := by
  refine ⟨?_, ?_, ?_⟩
  · simp [dispatchPlan, hnl]
  · simp [dispatchPlan, hnl, modernPlan, hne]
  · unfold modernUrl TagsArg.truthy TagsArg.normalize
    by_cases ht : tags = "" <;> simp [ht]

/-- C2 amended witness. -/
theorem modern_strategy_raw_tags_param_witness :
    (dispatchPlan false "/content/cat/shirts" "red, blue").1 = .modern ∧
    modernUrl false "/content/cat/shirts" (some (.str "red, blue")) =
      modernPublishBase ++ "_path=" ++ "/content/cat/shirts"
        ++ "&category=" ++ encodeURIComponent "red, blue" := by
  have h := modern_strategy_raw_tags_param false "/content/cat/shirts" "red, blue"
    (by decide) (by decide)
  exact ⟨h.1, h.2.2⟩

/-- C5: the card's product identifier follows the `sku`-then-`id`-then-empty
fallback, and a record lacking both `sku` and `id` yields a card with no
click handler attached. -/
theorem product_id_fallback_nonclickable (item : Item) (isAuthor : Bool) :
    (buildCard item isAuthor).productId = specProductId item ∧
    (item.sku = none → item.id = none → (buildCard item isAuthor).clickable = false) := by
  constructor
  · cases hs : item.sku with
    | none =>
      cases hi : item.id with
      | none => simp [buildCard, jsOrS, specProductId, specIdPart, hs, hi]
      | some i =>
        by_cases hie : i = "" <;>
          simp [buildCard, jsOrS, specProductId, specIdPart, hs, hi, hie]
    | some s =>
      by_cases hse : s = ""
      · cases hi : item.id with
        | none => simp [buildCard, jsOrS, specProductId, specIdPart, hs, hi, hse]
        | some i =>
          by_cases hie : i = "" <;>
            simp [buildCard, jsOrS, specProductId, specIdPart, hs, hi, hse, hie]
      · simp [buildCard, jsOrS, specProductId, specIdPart, hs, hse]
  · intro hs hi
    simp [buildCard, jsOrS, hs, hi]

/-- C5 witness: a record with neither `sku` nor `id` is non-interactive. -/
theorem product_id_fallback_nonclickable_witness :
    (buildCard {} false).clickable = false :=
  (product_id_fallback_nonclickable {} false).2 rfl rfl

/-- C7 counterexample: a whitespace-only tags value passes the truthiness
guard, so a `div.cpl-tags` header element IS emitted — with zero chips —
contradicting "an input consisting only of whitespace produces no
header". -/
theorem tag_header_whitespace_counterexample :
    renderHeader (.str " ") = some (.el "div" "cpl-tags" "" []) ∧
    chipTexts (.str " ") = [] := ⟨rfl, rfl⟩

/-- C7 amended: the header is emitted iff the tags value is a nonempty
string (resp. a nonempty array); its chips are the entries split on commas,
trimmed, with empty results dropped, in input order — so a whitespace-only
input yields a header with zero chips rather than no header. -/
theorem tag_header_emission (s : String) (elts : List String) :
    (renderHeader (.str s) =
      if s = "" then none
      else some (.el "div" "cpl-tags" ""
        ((((splitCommaS s).map trimS).filter fun t => decide (t ≠ "")).map
          fun t => .el "span" "cpl-tag" t []))) ∧
    (renderHeader (.list elts) =
      if elts.length = 0 then none
      else some (.el "div" "cpl-tags" ""
        (((elts.map trimS).filter fun t => decide (t ≠ "")).map
          fun t => .el "span" "cpl-tag" t []))) := by
  constructor
  · obtain ⟨l⟩ := s
    cases l with
    | nil => rfl
    | cons c t =>
      have hne : (⟨c :: t⟩ : String) ≠ "" := by
        intro hcon
        have := congrArg String.data hcon
        simp at this
      simp [renderHeader, chipTexts, TagsArg.truthy, TagsArg.len, hne]
  · cases elts with
    | nil => rfl
    | cons a t => simp [renderHeader, chipTexts, TagsArg.truthy, TagsArg.len]

/-- C9: the record sequence comes from the fixed nested path
`data.productsModelList.items`; absence of any part of the path yields the
empty sequence rather than an error, and an empty fetched sequence renders
the single `No products found.` message instead of cards. -/
theorem response_items_absent_empty_state (j : Json) (cards : List Node) :
    (itemsPath j = none → respItems j = []) ∧
    (j.getO "data" = none → itemsPath j = none) ∧
    ((j.getO "data").bind (fun d => d.getO "productsModelList") = none →
      itemsPath j = none) ∧
    (cards.length = 0 →
      gridNode cards = .el "div" "cpl-grid" "" [emptyMsgNode]) ∧
    emptyMsgNode = .el "p" "cpl-empty" "No products found." [] := by
  refine ⟨?_, ?_, ?_, ?_, rfl⟩
  · intro h; unfold respItems; rw [h]
  · intro h; unfold itemsPath; rw [h]; rfl
  · intro h; unfold itemsPath; rw [h]; rfl
  · intro h
    have : cards = [] := List.length_eq_zero.mp h
    rw [this]; rfl

/-- C9 witness: a response with no `data` member yields the empty sequence,
and the empty sequence renders the empty-state grid. -/
theorem response_items_absent_empty_state_witness :
    respItems (.obj [("other", .num 1)]) = [] ∧
    gridNode [] = .el "div" "cpl-grid" "" [emptyMsgNode] := by
  have h := response_items_absent_empty_state (.obj [("other", .num 1)]) []
  exact ⟨h.1 (h.2.1 rfl), h.2.2.2.1 rfl⟩

/-! ## Lemmas for C4 -/

theorem urlPathname_slash (s p : String) (h : urlPathname s = some p) :
    startsWithS p "/" = true := by
  unfold urlPathname at h
  split at h
  · cases h
  · unfold pathnameOfRest at h
    split at h
    · cases h
    · split at h
      · injection h with h'
        subst h'
        simp [startsWithS, isPre]
      · injection h with h'
        subst h'
        rfl

theorem startsWithS_http_ne_empty (href : String)
    (h : startsWithS href "http" = true) : href ≠ "" := by
  intro he
  rw [he] at h
  exact Bool.false_ne_true h

theorem append_html_ne_empty (s : String) : s ++ ".html" ≠ "" := by
  intro hcon
  have hd := congrArg String.data hcon
  rw [String.data_append] at hd
  exact List.append_ne_nil_of_right_ne_nil s.data (by decide) hd

theorem endsWithS_append_html (s : String) : endsWithS (s ++ ".html") ".html" = true := by
  unfold endsWithS
  show isPre (".html".toList.reverse) ((s ++ ".html").toList.reverse) = true
  have : (s ++ ".html").toList = s.toList ++ ".html".toList := String.data_append s ".html"
  rw [this, List.reverse_append]
  exact isPre_append_self _ _

/-- C4: for an authored reference that is an absolute URL (starts with
`"http"`), resolution replaces it by the URL's path component alone — a
string starting with `/`, carrying no scheme or host; a URL-parse failure
is swallowed and leaves the reference as extracted; and a trailing `.html`
is stripped exactly once (`stripHtmlOnce (s ++ ".html") = s` even when `s`
itself ends in `.html`). -/
theorem folder_href_resolution (href : String)
    (hhttp : startsWithS href "http" = true) :
    (∀ p, urlPathname href = some p →
      normalizeAbsUrl urlPathname href = p ∧ startsWithS p "/" = true) ∧
    (urlPathname href = none → normalizeAbsUrl urlPathname href = href) ∧
    (∀ s, stripHtmlOnce (s ++ ".html") = s) ∧
    resolveFolderHref urlPathname href =
      stripHtmlOnce (normalizeAbsUrl urlPathname href) := by
  have hne : href ≠ "" := startsWithS_http_ne_empty href hhttp
  refine ⟨?_, ?_, ?_, rfl⟩
  · intro p hp
    refine ⟨?_, urlPathname_slash href p hp⟩
    unfold normalizeAbsUrl
    rw [if_pos (by simp [hne, hhttp]), hp]
  · intro hnone
    unfold normalizeAbsUrl
    split
    · rw [hnone]
    · rfl
  · intro s
    unfold stripHtmlOnce
    rw [if_pos (by simp [append_html_ne_empty s, endsWithS_append_html s])]
    unfold dropRightS
    have hlen : (s ++ ".html").toList = s.toList ++ ".html".toList :=
      String.data_append s ".html"
    rw [hlen, List.length_append]
    show String.mk (List.take (s.toList.length + 5 - 5) (s.toList ++ ".html".toList)) = s
    rw [Nat.add_sub_cancel, List.take_left]
    rfl

/-- C4 witness. -/
theorem folder_href_resolution_witness :
    normalizeAbsUrl urlPathname "https://example.com/products/list.html" =
      "/products/list.html" ∧
    startsWithS "/products/list.html" "/" = true ∧
    stripHtmlOnce ("/a.html" ++ ".html") = "/a.html" := by
  have h := folder_href_resolution "https://example.com/products/list.html" (by decide)
  have h1 := h.1 "/products/list.html" (by decide)
  exact ⟨h1.1, h1.2, h.2.2.1 "/a.html"⟩

/-! ## Lemmas for C6 -/

theorem isPre_cons (x y : Char) (p s : List Char) :
    isPre (x :: p) (y :: s) = (decide (x = y) && isPre p s) := rfl

theorem slashSpacedAux_cons (prev : Option Char) (c : Char) (t : List Char) :
    slashSpacedAux prev (c :: t) =
      ((if c = '/' then decide (prev = some ' ') && headIsSpace t else true)
        && slashSpacedAux (some c) t) := rfl

theorem upChar_space : upChar ' ' = ' ' := by decide

theorem upChar_slash : upChar '/' = '/' := by decide

theorem upChar_ne_slash (c : Char) (h : c ≠ '/') : upChar c ≠ '/' := by
  unfold upChar
  cases hf : casePairs.find? (fun p => decide (p.1 = c)) with
  | none => exact h
  | some p =>
    have hmem := List.mem_of_find?_eq_some hf
    have hall : casePairs.all (fun q => decide (q.2 ≠ '/')) = true := by decide
    exact of_decide_eq_true (List.all_eq_true.mp hall p hmem)

theorem downChar_upChar (c : Char) : downChar (upChar c) = downChar c := by
  unfold upChar
  cases hf : casePairs.find? (fun p => decide (p.1 = c)) with
  | none => rfl
  | some p =>
    have hdec := List.find?_some hf
    have hc : p.1 = c := of_decide_eq_true hdec
    have hmem := List.mem_of_find?_eq_some hf
    have hall : casePairs.all (fun q => decide (downChar q.2 = downChar q.1)) = true := by
      decide
    have := of_decide_eq_true (List.all_eq_true.mp hall p hmem)
    rw [← hc]
    exact this

theorem isLowerLetter_upChar (c : Char) : isLowerLetter (upChar c) = false := by
  unfold upChar
  cases hf : casePairs.find? (fun p => decide (p.1 = c)) with
  | none => unfold isLowerLetter; rw [hf]; rfl
  | some p =>
    have hmem := List.mem_of_find?_eq_some hf
    have hall : casePairs.all (fun q => !isLowerLetter q.2) = true := by decide
    have := List.all_eq_true.mp hall p hmem
    rw [Bool.not_eq_true'] at this
    exact this

theorem replSlash_slash (t : List Char) :
    replSlash ('/' :: t) = ' ' :: '/' :: ' ' :: replSlash t := rfl

theorem replSlash_cons_ne (c : Char) (t : List Char) (h : c ≠ '/') :
    replSlash (c :: t) = c :: replSlash t := by
  show (if c = '/' then ' ' :: '/' :: ' ' :: replSlash t else c :: replSlash t)
    = c :: replSlash t
  rw [if_neg h]

theorem slashSpacedAux_up_repl (l : List Char) :
    ∀ prev, slashSpacedAux prev ((replSlash l).map upChar) = true := by
  induction l with
  | nil => intro prev; rfl
  | cons c t ih =>
    intro prev
    by_cases hc : c = '/'
    · subst hc
      rw [replSlash_slash, List.map_cons, List.map_cons, List.map_cons,
        upChar_space, upChar_slash]
      rw [slashSpacedAux_cons, if_neg (by decide : ¬ (' ' = '/')), Bool.true_and]
      rw [slashSpacedAux_cons, if_pos rfl]
      have hguard : (decide ((some ' ' : Option Char) = some ' ')
          && headIsSpace (' ' :: (replSlash t).map upChar)) = true := rfl
      rw [hguard, Bool.true_and]
      rw [slashSpacedAux_cons, if_neg (by decide : ¬ (' ' = '/')), Bool.true_and]
      exact ih (some ' ')
    · rw [replSlash_cons_ne c t hc, List.map_cons]
      rw [slashSpacedAux_cons, if_neg (upChar_ne_slash c hc), Bool.true_and]
      exact ih (some (upChar c))

theorem ciPre_map_upChar (pat y : List Char) :
    ciPre pat (y.map upChar) = ciPre pat y := by
  unfold ciPre
  rw [List.map_map, show downChar ∘ upChar = downChar from funext downChar_upChar]

theorem downChar_space : downChar ' ' = ' ' := by decide

theorem downChar_slash : downChar '/' = '/' := by decide

theorem ciPre_replSlash (s : List Char) : ∀ pat,
    (pat.all fun c => decide (downChar c ≠ '/') && decide (downChar c ≠ ' ')) = true →
    ciPre pat (replSlash s) = ciPre pat s := by
  induction s with
  | nil => intro pat _; rfl
  | cons c t ih =>
    intro pat hcond
    cases pat with
    | nil => rfl
    | cons a pr =>
      have hca := List.all_eq_true.mp hcond a (List.mem_cons_self a pr)
      rw [Bool.and_eq_true] at hca
      have ha1 : downChar a ≠ '/' := of_decide_eq_true hca.1
      have ha2 : downChar a ≠ ' ' := of_decide_eq_true hca.2
      have hpr : (pr.all fun x =>
          decide (downChar x ≠ '/') && decide (downChar x ≠ ' ')) = true := by
        rw [List.all_eq_true] at hcond ⊢
        intro x hx
        exact hcond x (List.mem_cons_of_mem a hx)
      by_cases hc : c = '/'
      · subst hc
        rw [replSlash_slash]
        unfold ciPre
        simp only [List.map_cons]
        rw [isPre_cons, isPre_cons, downChar_space, downChar_slash,
          decide_eq_false ha2, decide_eq_false ha1, Bool.false_and, Bool.false_and]
      · rw [replSlash_cons_ne c t hc]
        unfold ciPre
        simp only [List.map_cons]
        rw [isPre_cons, isPre_cons]
        have := ih pr hpr
        unfold ciPre at this
        rw [this]

theorem ciPre_drop (p : List Char) : ∀ (q j : List Char), ciPre p j = true →
    ciPre q (j.drop p.length) = ciPre (p ++ q) j := by
  induction p with
  | nil => intro q j _; rfl
  | cons a pr ih =>
    intro q j h
    cases j with
    | nil =>
      unfold ciPre at h
      simp only [List.map_cons, List.map_nil] at h
      rw [show isPre (downChar a :: pr.map downChar) [] = false from rfl] at h
      exact absurd h Bool.false_ne_true
    | cons b jt =>
      have hsplit : decide (downChar a = downChar b) = true ∧ ciPre pr jt = true := by
        unfold ciPre at h
        simp only [List.map_cons] at h
        rw [isPre_cons, Bool.and_eq_true] at h
        exact h
      calc ciPre q ((b :: jt).drop (a :: pr).length)
          = ciPre q (jt.drop pr.length) := rfl
        _ = ciPre (pr ++ q) jt := ih q jt hsplit.2
        _ = ciPre ((a :: pr) ++ q) (b :: jt) := by
            unfold ciPre
            rw [List.cons_append]
            simp only [List.map_cons]
            rw [isPre_cons, hsplit.1, Bool.true_and]

theorem stripLumaMark_no_mark (j : List Char) (hnd : doubledLumaMark j = false) :
    ciPre "luma:".toList (stripLumaMark j) = false ∧
    ciPre "lumaproducts:".toList (stripLumaMark j) = false := by
  unfold doubledLumaMark at hnd
  rw [Bool.or_eq_false_iff] at hnd
  obtain ⟨habc, h4⟩ := hnd
  rw [Bool.or_eq_false_iff] at habc
  obtain ⟨hab, h3⟩ := habc
  rw [Bool.or_eq_false_iff] at hab
  obtain ⟨h1, h2⟩ := hab
  unfold stripLumaMark
  by_cases hA : ciPre "luma:".toList j = true
  · rw [if_pos hA]
    have hlen : "luma:".toList.length = 5 := rfl
    constructor
    · have := ciPre_drop "luma:".toList "luma:".toList j hA
      rw [hlen] at this
      exact this.trans h1
    · have := ciPre_drop "luma:".toList "lumaproducts:".toList j hA
      rw [hlen] at this
      exact this.trans h2
  · rw [if_neg hA]
    by_cases hB : ciPre "lumaproducts:".toList j = true
    · rw [if_pos hB]
      have hlen : "lumaproducts:".toList.length = 13 := rfl
      constructor
      · have := ciPre_drop "lumaproducts:".toList "luma:".toList j hB
        rw [hlen] at this
        exact this.trans h3
      · have := ciPre_drop "lumaproducts:".toList "lumaproducts:".toList j hB
        rw [hlen] at this
        exact this.trans h4
    · rw [if_neg hB]
      exact ⟨Bool.eq_false_iff.mpr hA, Bool.eq_false_iff.mpr hB⟩

/-- C6 counterexample: for the category sequence `["luma:luma:men"]` the
rendered label is `"LUMA:MEN"`, which still carries a case-insensitive
leading `luma:` — the anchored replacement strips the marker only once, so
the claimed consequence "no leading prefix" fails. -/
theorem category_label_marker_counterexample :
    categoryLabel ["luma:luma:men"] = "LUMA:MEN" ∧
    ciStartsWith (categoryLabel ["luma:luma:men"]) "luma:" = true := by
  exact ⟨by decide, by decide⟩

/-- C6 amended: the label is join-with-`", "`, one anchored case-insensitive
strip of a leading `luma:`/`lumaproducts:` marker, slash padding, then
ASCII uppercasing; consequently it has no lowercase letters and every `/`
sits inside `" / "`, and it has no case-insensitive leading
`luma:`/`lumaproducts:` marker PROVIDED the joined text does not begin
with two stacked markers (the strip removes only the first). -/
theorem category_label_formatting (category : List String) :
    categoryLabel category =
      ⟨(replSlash (stripLumaMark (categoryText category).toList)).map upChar⟩ ∧
    (categoryLabel category).toList.all (fun c => !isLowerLetter c) = true ∧
    slashSpaced (categoryLabel category).toList = true ∧
    (doubledLumaMark (categoryText category).toList = false →
      ciStartsWith (categoryLabel category) "luma:" = false ∧
      ciStartsWith (categoryLabel category) "lumaproducts:" = false) := by
  refine ⟨rfl, ?_, ?_, ?_⟩
  · rw [List.all_eq_true]
    intro x hx
    obtain ⟨c, _, rfl⟩ := List.mem_map.mp hx
    rw [isLowerLetter_upChar]
    rfl
  · exact slashSpacedAux_up_repl _ none
  · intro hnd
    have hstrip := stripLumaMark_no_mark (categoryText category).toList hnd
    constructor
    · show ciPre "luma:".toList
        ((replSlash (stripLumaMark (categoryText category).toList)).map upChar) = false
      rw [ciPre_map_upChar, ciPre_replSlash _ "luma:".toList (by decide)]
      exact hstrip.1
    · show ciPre "lumaproducts:".toList
        ((replSlash (stripLumaMark (categoryText category).toList)).map upChar) = false
      rw [ciPre_map_upChar, ciPre_replSlash _ "lumaproducts:".toList (by decide)]
      exact hstrip.2

/-- C6 amended witness: a single leading marker is stripped and the label
is fully uppercased with padded slashes. -/
theorem category_label_formatting_witness :
    ciStartsWith (categoryLabel ["luma:men/shoes"]) "luma:" = false ∧
    slashSpaced (categoryLabel ["luma:men/shoes"]).toList = true := by
  have h := category_label_formatting ["luma:men/shoes"]
  exact ⟨(h.2.2.2 (by decide)).1, h.2.2.1⟩

end CPL
